import Mathlib

/-!
Verification of the Meridian cross-chain proposal program.

The Lean definitions below are a shallow embedding of the Rust source under
`programs/meridian/programs/meridian/src`:

* `create_transaction_payload`, `is_proposal_approved` embed `utils.rs`;
* `MeridianConfig`, `CrossChainProposal`, `ProposalStatus` embed `state/`;
* `init_handler`, `propose_transaction`, `execute_proposal` embed the three
  Anchor instructions (account `constraint`s are checked in declaration order,
  exactly as the Anchor-generated validation does, followed by the handler
  body);
* `applyOp` / `runOp` / `run` give the transition system induced by submitting
  transactions one at a time.  A failed instruction commits nothing: on the
  Solana runtime a transaction whose instruction returns an error is rolled
  back wholesale, and Anchor only serializes accounts back on success, so an
  erroring call leaves the persisted state exactly as it was.

Machine integers are modelled as `Nat` (with two's complement `Int` for `i64`
timestamps); wrapping and casts are made explicit where the source has them.
-/

namespace Meridian

/-- A Solana public key: 32 bytes.  We model it as a list of byte values;
the concrete instructions only compare keys and copy them into payloads. -/
abbrev Pubkey := List Nat

/-- Little-endian byte encoding of `n`, truncated to `width` bytes
(`byteorder::WriteBytesExt` semantics for a value already in range). -/
def leBytes (width n : Nat) : List Nat :=
  match width with
  | 0 => []
  | w + 1 => (n % 256) :: leBytes w (n / 256)

/-- The value denoted by a little-endian byte list. -/
def leVal (bs : List Nat) : Nat :=
  match bs with
  | [] => 0
  | b :: rest => b + 256 * leVal rest

/-- `write_u64::<LittleEndian>` on a `u64` value. -/
def u64le (n : Nat) : List Nat := leBytes 8 n

/-- `write_u32::<LittleEndian>` on a `u32` value (also models the
truncating `as u32` cast on a length). -/
def u32le (n : Nat) : List Nat := leBytes 4 n

/-- `write_u16::<LittleEndian>` on a `u16` value. -/
def u16le (n : Nat) : List Nat := leBytes 2 n

/-- `write_i64::<LittleEndian>`: two's complement little-endian bytes of a
signed 64-bit value. -/
def i64le (t : Int) : List Nat := leBytes 8 (t % ((2 : Int) ^ 64)).toNat

/-- `MAX_CALL_DATA_SIZE` from `utils.rs`. -/
def MAX_CALL_DATA_SIZE : Nat := 10000

/-- `CONSISTENCY_LEVEL_FINALIZED` from `utils.rs`. -/
def CONSISTENCY_LEVEL_FINALIZED : Nat := 1

/-- `MeridianMessageType::Transaction as u8` from `utils.rs`. -/
def MESSAGE_TYPE_TRANSACTION : Nat := 1

/-- `create_transaction_payload` from `utils.rs`: the cursor writes, in order,
version `1`, message type `1`, sequence (u64 LE), timestamp (i64 LE),
nonce `0` (u32 LE), the 32-byte proposal key, target chain (u16 LE), the
32-byte target address, gas limit (u64 LE), `call_data.len() as u32` (u32 LE),
then the call data verbatim. -/
def create_transaction_payload (proposal_key : Pubkey) (target_chain : Nat)
    (target_address : List Nat) (call_data : List Nat)
    (gas_limit : Nat) (sequence : Nat) (timestamp : Int) : List Nat :=
  [1, MESSAGE_TYPE_TRANSACTION]
    ++ u64le sequence
    ++ i64le timestamp
    ++ u32le 0
    ++ proposal_key
    ++ u16le target_chain
    ++ target_address
    ++ u64le gas_limit
    ++ u32le call_data.length
    ++ call_data

/-- The fields of a decoded transaction payload. -/
structure DecodedPayload where
  version : Nat
  message_type : Nat
  sequence : Nat
  timestamp : Int
  nonce : Nat
  proposal_key : List Nat
  target_chain : Nat
  target_address : List Nat
  gas_limit : Nat
  call_data : List Nat
deriving DecidableEq

/-- Reads a 64-bit little-endian two's complement integer. -/
def decodeI64 (bs : List Nat) : Int :=
  let v := leVal bs
  if v < 2 ^ 63 then (v : Int) else (v : Int) - 2 ^ 64

/-- Modelled from the spec: the decoder for the §4.1 wire layout (the remote
chain's decoder is outside this repository).  It reads, in order, the version
byte, message-type byte, sequence (8 bytes LE), timestamp (8 bytes LE signed),
nonce (4 bytes LE), 32-byte proposal key, target chain (2 bytes LE), 32-byte
target address, gas limit (8 bytes LE), call-data length (4 bytes LE) and then
exactly that many call-data bytes. -/
def decode_transaction_payload (p : List Nat) : Option DecodedPayload :=
  match p with
  | version :: mtype :: r2 =>
    if r2.length < 98 then none
    else
      let seqb := r2.take 8
      let r3 := r2.drop 8
      let tsb := r3.take 8
      let r4 := r3.drop 8
      let nonceb := r4.take 4
      let r5 := r4.drop 4
      let key := r5.take 32
      let r6 := r5.drop 32
      let tcb := r6.take 2
      let r7 := r6.drop 2
      let addr := r7.take 32
      let r8 := r7.drop 32
      let glb := r8.take 8
      let r9 := r8.drop 8
      let lenb := r9.take 4
      let r10 := r9.drop 4
      if r10.length = leVal lenb then
        some ⟨version, mtype, leVal seqb, decodeI64 tsb, leVal nonceb,
              key, leVal tcb, addr, leVal glb, r10⟩
      else none
  | _ => none

/-- The error outcomes an instruction of this program can produce.  The first
twelve constructors are the `MeridianError` variants of `errors.rs`; the
remaining constructors are the host-level failures that the Anchor account
validation and the Solana runtime produce for this program:

* `AccountNotCreated`: an `Account` to deserialize does not exist yet;
* `AccountAlreadyInUse`: `init` on the config PDA when it already exists;
* `DuplicateIndex`: `init` on the proposal PDA when a record already exists at
  the `(multisig, transaction_index)` key.  Modelled from the spec: the
  account-storage substrate raising this failure is outside `src/`, and the
  spec names this failure `DuplicateIndex`;
* `ConstraintSeeds`: a `seeds` constraint violation;
* `ConstraintRaw`: a `constraint = ...` clause without an `@` custom error;
* `ArithmeticOverflow`: the panic of an overflow-checked `u64` addition;
* `CpiError`: the error of a failed `invoke_signed`, propagated unchanged by
  the `?` operator in `post_wormhole_message`. -/
inductive ProgError where
  | UnauthorizedMultisig
  | ProposalNotPending
  | ProposalNotApproved
  | InvalidWormholeProgram
  | FailedToSendMessage
  | TransactionIndexMismatch
  | InvalidTargetChain
  | ProposalAlreadyExecuted
  | UnauthorizedAuthority
  | InvalidTargetAddress
  | CallDataTooLarge
  | GasLimitTooHigh
  | AccountNotCreated
  | AccountAlreadyInUse
  | DuplicateIndex
  | ConstraintSeeds
  | ConstraintRaw
  | ArithmeticOverflow
  | CpiError (code : Nat)
deriving DecidableEq

/-- `is_proposal_approved` from `utils.rs`: the arguments are ignored and the
function returns `Ok(true)` (the Squads integration is a stub, see the
`FIXME` in the source). -/
def is_proposal_approved (squads_program multisig_account proposal_account : Pubkey) :
    Except ProgError Bool :=
  .ok true

/-- `ProposalStatus` from `state/proposal.rs`. -/
inductive ProposalStatus where
  | Pending
  | Executed
  | Failed
  | Cancelled
deriving DecidableEq

/-- `MeridianConfig` from `state/config.rs`. -/
structure MeridianConfig where
  authority : Pubkey
  authorized_multisig : Pubkey
  wormhole_program : Pubkey
  wormhole_bridge : Pubkey
  wormhole_fee_collector : Pubkey
  emitter : Pubkey
  emitter_bump : Nat
  sequence : Nat
  bump : Nat
deriving DecidableEq

/-- `CrossChainProposal` from `state/proposal.rs`. -/
structure CrossChainProposal where
  multisig : Pubkey
  transaction_index : Nat
  target_chain : Nat
  target_address : List Nat
  call_data : List Nat
  gas_limit : Nat
  status : ProposalStatus
  wormhole_sequence : Option Nat
  created_at : Int
  executed_at : Option Int
  bump : Nat
deriving DecidableEq

/-- A proposal PDA is addressed by the seeds
`[b"proposal", multisig, transaction_index]`, so the store key is the
`(multisig, transaction_index)` pair. -/
abbrev ProposalKey := Pubkey × Nat

/-- The persisted state the program can touch: the config PDA (absent until
the program is set up) and the proposal PDAs. -/
structure World where
  config : Option MeridianConfig
  proposals : List (ProposalKey × CrossChainProposal)
deriving DecidableEq

/-- Looks up the proposal account stored at a key. -/
def lookupStore (l : List (ProposalKey × CrossChainProposal)) (k : ProposalKey) :
    Option CrossChainProposal :=
  match l with
  | [] => none
  | kv :: rest => if kv.1 = k then some kv.2 else lookupStore rest k

/-- Writes back the proposal account stored at a key. -/
def setStore (l : List (ProposalKey × CrossChainProposal)) (k : ProposalKey)
    (p : CrossChainProposal) : List (ProposalKey × CrossChainProposal) :=
  match l with
  | [] => []
  | kv :: rest =>
    if kv.1 = k then (k, p) :: setStore rest k p else kv :: setStore rest k p

def World.lookupProposal (w : World) (k : ProposalKey) : Option CrossChainProposal :=
  lookupStore w.proposals k

/-- The current sequence counter (0 while the config PDA does not exist). -/
def configSeq (w : World) : Nat :=
  match w.config with
  | some c => c.sequence
  | none => 0

/-- The accounts supplied to `Meridian::init` (the bootstrap instruction of
`instructions/` that creates the config PDA). -/
structure InitAccounts where
  authority : Pubkey
  authorized_multisig : Pubkey
  wormhole_program : Pubkey
  wormhole_bridge : Pubkey
  wormhole_fee_collector : Pubkey
  emitter : Pubkey
  emitter_bump : Nat
  config_bump : Nat
deriving DecidableEq

/-- The bootstrap handler (`instructions` module, `handler` for the config
setup): `init` creates the config PDA (failing if it already exists) and the
handler copies the supplied accounts into it, with `config.sequence = 0`. -/
def init_handler (acc : InitAccounts) (w : World) : Except ProgError World :=
  match w.config with
  | some _ => .error .AccountAlreadyInUse
  | none =>
    .ok { w with
          config := some
            { authority := acc.authority
              authorized_multisig := acc.authorized_multisig
              wormhole_program := acc.wormhole_program
              wormhole_bridge := acc.wormhole_bridge
              wormhole_fee_collector := acc.wormhole_fee_collector
              emitter := acc.emitter
              emitter_bump := acc.emitter_bump
              sequence := 0
              bump := acc.config_bump } }

/-- The arguments and accounts of `propose_transaction`. -/
structure ProposeArgs where
  payer : Pubkey
  multisig : Pubkey
  transaction_index : Nat
  target_chain : Nat
  target_address : List Nat
  call_data : List Nat
  gas_limit : Nat
  proposal_bump : Nat
deriving DecidableEq

/-- `propose_transaction` (`instructions/propose.rs`): Anchor validates the
accounts in declaration order — the config PDA must exist, the supplied
multisig must equal `config.authorized_multisig` (custom error
`UnauthorizedMultisig`), and `init` on the proposal PDA fails if a record
already exists at `(multisig, transaction_index)` — then the handler rejects
call data longer than `MAX_CALL_DATA_SIZE` and otherwise stores the new
proposal with status `Pending`. -/
def propose_transaction (a : ProposeArgs) (now : Int) (w : World) :
    Except ProgError World :=
  match w.config with
  | none => .error .AccountNotCreated
  | some config =>
    if config.authorized_multisig = a.multisig then
      match lookupStore w.proposals (a.multisig, a.transaction_index) with
      | some _ => .error .DuplicateIndex
      | none =>
        if a.call_data.length > MAX_CALL_DATA_SIZE then
          .error .CallDataTooLarge
        else
          .ok { w with
                proposals :=
                  ((a.multisig, a.transaction_index),
                    { multisig := a.multisig
                      transaction_index := a.transaction_index
                      target_chain := a.target_chain
                      target_address := a.target_address
                      call_data := a.call_data
                      gas_limit := a.gas_limit
                      status := .Pending
                      wormhole_sequence := none
                      created_at := now
                      executed_at := none
                      bump := a.proposal_bump }) :: w.proposals }
    else .error .UnauthorizedMultisig

/-- The accounts supplied to `execute_proposal` (`instructions/execute.rs`).
`proposal_key` identifies the proposal PDA handed in, `proposal_address` is
that PDA's own 32-byte address (what `proposal.key()` returns). -/
structure ExecuteAccounts where
  payer : Pubkey
  proposal_key : ProposalKey
  proposal_address : Pubkey
  multisig : Pubkey
  squads_proposal : Pubkey
  wormhole_program : Pubkey
  wormhole_bridge : Pubkey
  wormhole_message : Pubkey
  wormhole_sequence : Pubkey
  wormhole_fee_collector : Pubkey
  emitter : Pubkey
deriving DecidableEq

/-- The Anchor account validation of `ExecuteProposal`, in declaration order:
the config PDA must exist; the proposal PDA must exist, its `seeds` must match
its own stored `(multisig, transaction_index)`, and its status must be
`Pending` (`ProposalNotPending`); the supplied multisig must equal
`config.authorized_multisig` (`UnauthorizedMultisig`) and then equal
`proposal.multisig` (a raw constraint with no custom error); the Wormhole
program must match (`InvalidWormholeProgram`); the bridge, fee collector and
emitter must match (raw constraints). -/
def execute_validate (acc : ExecuteAccounts) (w : World) :
    Except ProgError (MeridianConfig × CrossChainProposal) :=
  match w.config with
  | none => .error .AccountNotCreated
  | some config =>
    match lookupStore w.proposals acc.proposal_key with
    | none => .error .AccountNotCreated
    | some proposal =>
      if (proposal.multisig, proposal.transaction_index) = acc.proposal_key then
        if proposal.status = .Pending then
          if config.authorized_multisig = acc.multisig then
            if proposal.multisig = acc.multisig then
              if config.wormhole_program = acc.wormhole_program then
                if config.wormhole_bridge = acc.wormhole_bridge then
                  if config.wormhole_fee_collector = acc.wormhole_fee_collector then
                    if config.emitter = acc.emitter then .ok (config, proposal)
                    else .error .ConstraintRaw
                  else .error .ConstraintRaw
                else .error .ConstraintRaw
              else .error .InvalidWormholeProgram
            else .error .ConstraintRaw
          else .error .UnauthorizedMultisig
        else .error .ProposalNotPending
      else .error .ConstraintSeeds

/-- Overflow-checked `u64` addition.  Modelled from the spec: the build
profile fixing Rust's release overflow semantics (the workspace `Cargo.toml`)
is not under `src/`; the spec's counter contract — strictly increasing, never
decremented, never reused — corresponds to the overflow-checked `+=` that
aborts the transaction instead of wrapping. -/
def checked_add_u64 (a b : Nat) : Except ProgError Nat :=
  if a + b < 2 ^ 64 then .ok (a + b) else .error .ArithmeticOverflow

/-- The borsh bytes of `PostMessageData { nonce, payload, consistency_level }`
(`utils.rs`): u32 LE nonce, then the `Vec<u8>` as u32 LE length plus bytes,
then the u8 consistency level.  Serializing into a `Vec` cannot fail, so the
`map_err(FailedToSendMessage)` branch of `post_wormhole_message` is dead. -/
def postMessageData_bytes (nonce : Nat) (payload : List Nat)
    (consistency_level : Nat) : List Nat :=
  u32le nonce ++ u32le payload.length ++ payload ++ [consistency_level % 256]

/-- `post_wormhole_message` (`utils.rs`): builds the instruction data (which
always succeeds) and performs `invoke_signed`, whose outcome is the external
bridge's to decide; `?` propagates a CPI failure unchanged. -/
def post_wormhole_message (cpi : Except Nat Unit) (nonce : Nat)
    (payload : List Nat) (consistency_level : Nat) : Except ProgError Unit :=
  let _ixData := postMessageData_bytes nonce payload consistency_level
  match cpi with
  | .error code => .error (.CpiError code)
  | .ok _ => .ok ()

/-- The body of the execute handler after the approval query
(`instructions/execute.rs` lines 102-149), parameterized by the approval
answer: reject unapproved proposals, increment `config.sequence`, build the
payload, post the Wormhole message, then mark the proposal `Executed` with
`wormhole_sequence = Some(config.sequence)` and `executed_at = Some(now)`. -/
def execute_handler_core (is_approved : Bool) (cpi : Except Nat Unit) (now : Int)
    (proposal_address : Pubkey) (config : MeridianConfig)
    (proposal : CrossChainProposal) :
    Except ProgError (MeridianConfig × CrossChainProposal) :=
  match is_approved with
  | false => .error .ProposalNotApproved
  | true =>
    match checked_add_u64 config.sequence 1 with
    | .error e => .error e
    | .ok newSeq =>
      let payload := create_transaction_payload proposal_address
        proposal.target_chain proposal.target_address proposal.call_data
        proposal.gas_limit newSeq now
      match post_wormhole_message cpi 0 payload CONSISTENCY_LEVEL_FINALIZED with
      | .error e => .error e
      | .ok _ =>
        .ok ({ config with sequence := newSeq },
             { proposal with
               status := .Executed
               wormhole_sequence := some newSeq
               executed_at := some now })

/-- `execute_proposal` with the approval oracle's answer as a parameter:
account validation, then the oracle query, then `execute_handler_core`, then
the account write-back (committed only when the whole instruction succeeds). -/
def execute_proposal_with_oracle (oracle : Except ProgError Bool)
    (acc : ExecuteAccounts) (cpi : Except Nat Unit) (now : Int) (w : World) :
    Except ProgError World :=
  match execute_validate acc w with
  | .error e => .error e
  | .ok (config, proposal) =>
    match oracle with
    | .error e => .error e
    | .ok approved =>
      match execute_handler_core approved cpi now acc.proposal_address config proposal with
      | .error e => .error e
      | .ok (config', proposal') =>
        .ok { config := some config'
              proposals := setStore w.proposals acc.proposal_key proposal' }

/-- `execute_proposal` (`instructions/execute.rs`): the oracle is the actual
`is_proposal_approved` stub, called on the Wormhole program, multisig and
Squads proposal accounts exactly as in the source. -/
def execute_proposal (acc : ExecuteAccounts) (cpi : Except Nat Unit) (now : Int)
    (w : World) : Except ProgError World :=
  execute_proposal_with_oracle
    (is_proposal_approved acc.wormhole_program acc.multisig acc.squads_proposal)
    acc cpi now w

/-- One submitted transaction: the bootstrap, a proposal submission, or an
execution (the latter carrying the external CPI outcome and the clock). -/
inductive Op where
  | opInit (acc : InitAccounts)
  | opPropose (a : ProposeArgs) (now : Int)
  | opExecute (acc : ExecuteAccounts) (cpi : Except Nat Unit) (now : Int)

def applyOp (op : Op) (w : World) : Except ProgError World :=
  match op with
  | .opInit acc => init_handler acc w
  | .opPropose a now => propose_transaction a now w
  | .opExecute acc cpi now => execute_proposal acc cpi now w

/-- The persisted state after one transaction: a failed instruction is rolled
back by the runtime, so it leaves the state unchanged. -/
def runOp (w : World) (op : Op) : World :=
  match applyOp op w with
  | .ok w' => w'
  | .error _ => w

def run (w : World) (ops : List Op) : World := ops.foldl runOp w

/-- The status of the proposal stored at a key, if any. -/
def statusAt (w : World) (k : ProposalKey) : Option ProposalStatus :=
  (w.lookupProposal k).map CrossChainProposal.status

/-- The `wormhole_sequence` values recorded by the successful executions of a
run, in order. -/
def recordedSeqs (w : World) : List Op → List Nat
  | [] => []
  | op :: rest =>
    match applyOp op w with
    | .error _ => recordedSeqs w rest
    | .ok w' =>
      (match op with
       | .opExecute acc _ _ =>
         match (lookupStore w'.proposals acc.proposal_key).bind
             CrossChainProposal.wormhole_sequence with
         | some s => [s]
         | none => []
       | _ => []) ++ recordedSeqs w' rest

/-- The state invariant maintained by the program: a proposal PDA exists only
once the config does, is stored under its own `(multisig, transaction_index)`
seeds, and belongs to the configured multisig. -/
def Inv (w : World) : Prop :=
  (w.config = none → w.proposals = []) ∧
  (∀ kv ∈ w.proposals, (kv.2.multisig, kv.2.transaction_index) = kv.1) ∧
  (∀ kv ∈ w.proposals, ∀ c, w.config = some c → kv.2.multisig = c.authorized_multisig)

instance {e a : Type} [DecidableEq e] [DecidableEq a] : DecidableEq (Except e a) := fun x y =>
  match x, y with
  | .error e1, .error e2 =>
    if h : e1 = e2 then .isTrue (by rw [h])
    else .isFalse (by intro hc; cases hc; exact h rfl)
  | .error e1, .ok a2 => .isFalse (by intro hc; cases hc)
  | .ok a1, .error e2 => .isFalse (by intro hc; cases hc)
  | .ok a1, .ok a2 =>
    if h : a1 = a2 then .isTrue (by rw [h])
    else .isFalse (by intro hc; cases hc; exact h rfl)

/-- The state after one call of the oracle-parameterized execute: a failed
instruction is rolled back, a successful one commits. -/
def run_with_oracle (oracle : Except ProgError Bool) (acc : ExecuteAccounts)
    (cpi : Except Nat Unit) (now : Int) (w : World) : World :=
  match execute_proposal_with_oracle oracle acc cpi now w with
  | .ok w' => w'
  | .error _ => w

/-- A concrete 32-byte key for test scenarios. -/
def pk (b : Nat) : Pubkey := List.replicate 32 b

/-- A concrete configuration: multisig `pk 2` is authorized and the counter
stands at 4. -/
def cfg0 : MeridianConfig :=
  { authority := pk 7
    authorized_multisig := pk 2
    wormhole_program := pk 3
    wormhole_bridge := pk 4
    wormhole_fee_collector := pk 5
    emitter := pk 6
    emitter_bump := 255
    sequence := 4
    bump := 254 }

/-- A concrete pending proposal of multisig `pk 2` at index 7. -/
def prop0 : CrossChainProposal :=
  { multisig := pk 2
    transaction_index := 7
    target_chain := 2
    target_address := pk 0
    call_data := [170, 187]
    gas_limit := 100000
    status := .Pending
    wormhole_sequence := none
    created_at := 1000
    executed_at := none
    bump := 253 }

/-- A concrete state holding `cfg0` and the pending `prop0`. -/
def w0 : World := { config := some cfg0, proposals := [((pk 2, 7), prop0)] }

/-- The matching execute accounts for `prop0` under `cfg0`. -/
def execAcc0 : ExecuteAccounts :=
  { payer := pk 8
    proposal_key := (pk 2, 7)
    proposal_address := pk 12
    multisig := pk 2
    squads_proposal := pk 9
    wormhole_program := pk 3
    wormhole_bridge := pk 4
    wormhole_message := pk 10
    wormhole_sequence := pk 11
    wormhole_fee_collector := pk 5
    emitter := pk 6 }

/-- Like `w0` but the stored proposal is already `Executed`. -/
def w1 : World :=
  { config := some cfg0
    proposals := [((pk 2, 7), { prop0 with status := .Executed })] }

/-- Like `execAcc0` but supplying the unauthorized multisig `pk 1`. -/
def execAcc1 : ExecuteAccounts := { execAcc0 with multisig := pk 1 }

/-- A concrete authorized propose call with small call data at a fresh key. -/
def propArgs0 : ProposeArgs :=
  { payer := pk 8
    multisig := pk 2
    transaction_index := 9
    target_chain := 2
    target_address := pk 0
    call_data := [170, 187]
    gas_limit := 100000
    proposal_bump := 252 }

@[simp]
theorem leBytes_length (w n : Nat) : (leBytes w n).length = w := by
  induction w generalizing n with
  | zero => rfl
  | succ w ih => simp [leBytes, ih]

theorem leVal_leBytes (w n : Nat) : leVal (leBytes w n) = n % 256 ^ w := by
  induction w generalizing n with
  | zero => simp [leBytes, leVal, Nat.mod_one]
  | succ w ih =>
    rw [leBytes, leVal, ih, pow_succ, mul_comm (256 ^ w) 256, Nat.mod_mul]

theorem leVal_u64le (n : Nat) (h : n < 2 ^ 64) : leVal (u64le n) = n := by
  rw [u64le, leVal_leBytes, Nat.mod_eq_of_lt]
  have h8 : (256 : Nat) ^ 8 = 2 ^ 64 := by norm_num
  omega

theorem leVal_u32le (n : Nat) (h : n < 2 ^ 32) : leVal (u32le n) = n := by
  rw [u32le, leVal_leBytes, Nat.mod_eq_of_lt]
  have h4 : (256 : Nat) ^ 4 = 2 ^ 32 := by norm_num
  omega

theorem leVal_u16le (n : Nat) (h : n < 2 ^ 16) : leVal (u16le n) = n := by
  rw [u16le, leVal_leBytes, Nat.mod_eq_of_lt]
  have h2 : (256 : Nat) ^ 2 = 2 ^ 16 := by norm_num
  omega

theorem decodeI64_i64le (t : Int) (h1 : -(2 ^ 63) ≤ t) (h2 : t < 2 ^ 63) :
    decodeI64 (i64le t) = t := by
  rw [decodeI64, i64le, leVal_leBytes]
  have hpow : ((2 : Int) ^ 64) = 18446744073709551616 := by norm_num
  have hmod : (t % ((2 : Int) ^ 64)).toNat % 256 ^ 8 = (t % ((2 : Int) ^ 64)).toNat := by
    apply Nat.mod_eq_of_lt
    have hlt : t % ((2 : Int) ^ 64) < 18446744073709551616 := by omega
    have hge : 0 ≤ t % ((2 : Int) ^ 64) := by omega
    have h8 : (256 : Nat) ^ 8 = 18446744073709551616 := by norm_num
    omega
  rw [hmod]
  have hv : ((t % ((2 : Int) ^ 64)).toNat : Int) = t % ((2 : Int) ^ 64) := by
    apply Int.toNat_of_nonneg
    omega
  split
  · omega
  · omega

@[simp]
theorem u64le_length (n : Nat) : (u64le n).length = 8 := by simp [u64le]

@[simp]
theorem u32le_length (n : Nat) : (u32le n).length = 4 := by simp [u32le]

@[simp]
theorem u16le_length (n : Nat) : (u16le n).length = 2 := by simp [u16le]

@[simp]
theorem i64le_length (t : Int) : (i64le t).length = 8 := by simp [i64le]

/-- C3: for every input with `call_data` of length at most 10000, the payload
encoder produces exactly, in order: version byte 1, message-type byte 1,
sequence as 8 LE bytes, timestamp as 8 LE bytes, nonce 0 as 4 LE bytes, the
32-byte proposal key, target_chain as 2 LE bytes, the 32-byte target address,
gas_limit as 8 LE bytes, the call_data length as 4 LE bytes, then the
call_data verbatim; the total length is `100 + call_data.length`, and the
layout decoder recovers exactly the original field values. -/
theorem C3_payload_codec_roundtrip (key addr cd : List Nat) (tc gl sq : Nat)
    (ts : Int) (hkey : key.length = 32) (haddr : addr.length = 32)
    (hcd : cd.length ≤ 10000) (htc : tc < 2 ^ 16) (hgl : gl < 2 ^ 64)
    (hsq : sq < 2 ^ 64) (hts1 : -(2 ^ 63) ≤ ts) (hts2 : ts < 2 ^ 63) :
    create_transaction_payload key tc addr cd gl sq ts =
      [1, 1] ++ u64le sq ++ i64le ts ++ u32le 0 ++ key ++ u16le tc ++ addr
        ++ u64le gl ++ u32le cd.length ++ cd ∧
    (create_transaction_payload key tc addr cd gl sq ts).length = 100 + cd.length ∧
    decode_transaction_payload (create_transaction_payload key tc addr cd gl sq ts) =
      some ⟨1, 1, sq, ts, 0, key, tc, addr, gl, cd⟩ := by
  refine ⟨rfl, ?_, ?_⟩
  · simp [create_transaction_payload, MESSAGE_TYPE_TRANSACTION, hkey, haddr]
    omega
  · have e1 : create_transaction_payload key tc addr cd gl sq ts
        = 1 :: 1 :: (u64le sq ++ (i64le ts ++ (u32le 0 ++ (key ++ (u16le tc ++
            (addr ++ (u64le gl ++ (u32le cd.length ++ cd)))))))) := by
      simp [create_transaction_payload, MESSAGE_TYPE_TRANSACTION, List.append_assoc]
    rw [e1]
    simp only [decode_transaction_payload, List.length_append, u64le_length,
      i64le_length, u32le_length, u16le_length, hkey, haddr,
      List.take_left', List.drop_left']
    rw [leVal_u64le sq hsq, leVal_u16le tc htc, leVal_u64le gl hgl,
      decodeI64_i64le ts hts1 hts2, leVal_u32le cd.length (by omega),
      leVal_u32le 0 (by norm_num)]
    split
    · exfalso; omega
    · simp

theorem lookup_mem {l : List (ProposalKey × CrossChainProposal)} {k : ProposalKey}
    {p : CrossChainProposal} (h : lookupStore l k = some p) : (k, p) ∈ l := by
  induction l with
  | nil => simp [lookupStore] at h
  | cons kv rest ih =>
    rw [lookupStore] at h
    split at h
    · rename_i heq
      cases h
      subst heq
      rw [Prod.mk.eta]
      exact List.mem_cons_self _ _
    · right
      exact ih h

theorem lookup_setStore_self {l : List (ProposalKey × CrossChainProposal)}
    {k : ProposalKey} {p q : CrossChainProposal} (h : lookupStore l k = some q) :
    lookupStore (setStore l k p) k = some p := by
  induction l with
  | nil => simp [lookupStore] at h
  | cons kv rest ih =>
    rw [lookupStore] at h
    rw [setStore]
    split at h
    · rename_i heq
      rw [if_pos heq, lookupStore, if_pos rfl]
    · rename_i hne
      rw [if_neg hne, lookupStore, if_neg hne]
      exact ih h

theorem lookup_setStore_ne {l : List (ProposalKey × CrossChainProposal)}
    {k k' : ProposalKey} {p : CrossChainProposal} (h : k' ≠ k) :
    lookupStore (setStore l k p) k' = lookupStore l k' := by
  induction l with
  | nil => rfl
  | cons kv rest ih =>
    rw [setStore]
    split
    · rename_i heq
      rw [lookupStore, lookupStore, heq, if_neg (fun hc => h hc.symm),
        if_neg (fun hc => h hc.symm)]
      exact ih
    · rw [lookupStore, lookupStore]
      split
      · rfl
      · exact ih

theorem mem_setStore {l : List (ProposalKey × CrossChainProposal)}
    {k : ProposalKey} {p : CrossChainProposal}
    {kv : ProposalKey × CrossChainProposal} (h : kv ∈ setStore l k p) :
    kv = (k, p) ∨ kv ∈ l := by
  induction l with
  | nil => exact absurd h (List.not_mem_nil kv)
  | cons kv' rest ih =>
    rw [setStore] at h
    split at h
    · rcases List.mem_cons.mp h with h1 | h1
      · exact .inl h1
      · rcases ih h1 with h2 | h2
        · exact .inl h2
        · exact .inr (List.mem_cons_of_mem _ h2)
    · rcases List.mem_cons.mp h with h1 | h1
      · exact .inr (h1 ▸ List.mem_cons_self _ _)
      · rcases ih h1 with h2 | h2
        · exact .inl h2
        · exact .inr (List.mem_cons_of_mem _ h2)

theorem execute_validate_ok_iff {acc : ExecuteAccounts} {w : World}
    {c : MeridianConfig} {p : CrossChainProposal} :
    execute_validate acc w = .ok (c, p) ↔
      w.config = some c ∧
      lookupStore w.proposals acc.proposal_key = some p ∧
      (p.multisig, p.transaction_index) = acc.proposal_key ∧
      p.status = .Pending ∧
      c.authorized_multisig = acc.multisig ∧
      p.multisig = acc.multisig ∧
      c.wormhole_program = acc.wormhole_program ∧
      c.wormhole_bridge = acc.wormhole_bridge ∧
      c.wormhole_fee_collector = acc.wormhole_fee_collector ∧
      c.emitter = acc.emitter := by
  rw [execute_validate]
  constructor
  · intro h
    split at h
    · cases h
    · rename_i cfg hcfg
      split at h
      · cases h
      · rename_i prop hprop
        split at h <;> [skip; cases h]
        split at h <;> [skip; cases h]
        split at h <;> [skip; cases h]
        split at h <;> [skip; cases h]
        split at h <;> [skip; cases h]
        split at h <;> [skip; cases h]
        split at h <;> [skip; cases h]
        split at h <;> [skip; cases h]
        cases h
        simp_all
  · rintro ⟨h1, h2, h3, h4, h5, h6, h7, h8, h9, h10⟩
    rw [h6] at h3
    simp [h1, h2, h3, h4, h5, h6, h7, h8, h9, h10]

theorem execute_validate_err {acc : ExecuteAccounts} {w : World} {e : ProgError}
    (h : execute_validate acc w = .error e) (cpi : Except Nat Unit) (now : Int) :
    execute_proposal acc cpi now w = .error e := by
  rw [execute_proposal, execute_proposal_with_oracle, h]

/-- The exact shape of a successful execution. -/
theorem execute_ok_iff {acc : ExecuteAccounts} {cpi : Except Nat Unit}
    {now : Int} {w w' : World} :
    execute_proposal acc cpi now w = .ok w' ↔
      ∃ c p, execute_validate acc w = .ok (c, p) ∧ cpi = .ok () ∧
        c.sequence + 1 < 2 ^ 64 ∧
        w' = { config := some { c with sequence := c.sequence + 1 }
               proposals := setStore w.proposals acc.proposal_key
                 { p with status := .Executed
                          wormhole_sequence := some (c.sequence + 1)
                          executed_at := some now } } := by
  rw [execute_proposal, execute_proposal_with_oracle]
  constructor
  · intro h
    split at h
    · cases h
    · rename_i c p hcp
      simp only [is_proposal_approved, execute_handler_core, checked_add_u64,
        post_wormhole_message] at h
      by_cases hlt : c.sequence + 1 < 2 ^ 64
      · rw [if_pos hlt] at h
        cases cpi with
        | error code => cases h
        | ok u =>
          cases u
          cases h
          exact ⟨c, p, hcp, rfl, hlt, rfl⟩
      · rw [if_neg hlt] at h
        cases h
  · rintro ⟨c, p, hval, hcpi, hlt, hw'⟩
    rw [hval, hcpi, hw']
    simp only [is_proposal_approved, execute_handler_core, checked_add_u64,
      post_wormhole_message]
    rw [if_pos hlt]

theorem init_ok_elim {acc : InitAccounts} {w w' : World}
    (h : init_handler acc w = .ok w') :
    w.config = none ∧ w'.proposals = w.proposals ∧
    w'.config = some
      { authority := acc.authority
        authorized_multisig := acc.authorized_multisig
        wormhole_program := acc.wormhole_program
        wormhole_bridge := acc.wormhole_bridge
        wormhole_fee_collector := acc.wormhole_fee_collector
        emitter := acc.emitter
        emitter_bump := acc.emitter_bump
        sequence := 0
        bump := acc.config_bump } := by
  rw [init_handler] at h
  split at h
  · cases h
  · rename_i hc
    cases h
    exact ⟨hc, rfl, rfl⟩

theorem init_err_cases {acc : InitAccounts} {w : World} {e : ProgError}
    (h : init_handler acc w = .error e) : e = .AccountAlreadyInUse := by
  rw [init_handler] at h
  split at h <;> cases h <;> rfl

theorem propose_ok_elim {a : ProposeArgs} {now : Int} {w w' : World}
    (h : propose_transaction a now w = .ok w') :
    ∃ c, w.config = some c ∧ c.authorized_multisig = a.multisig ∧
      lookupStore w.proposals (a.multisig, a.transaction_index) = none ∧
      a.call_data.length ≤ MAX_CALL_DATA_SIZE ∧
      w' = { w with proposals := ((a.multisig, a.transaction_index),
        { multisig := a.multisig
          transaction_index := a.transaction_index
          target_chain := a.target_chain
          target_address := a.target_address
          call_data := a.call_data
          gas_limit := a.gas_limit
          status := .Pending
          wormhole_sequence := none
          created_at := now
          executed_at := none
          bump := a.proposal_bump }) :: w.proposals } := by
  rw [propose_transaction] at h
  split at h
  · cases h
  · rename_i c hc
    split at h
    · rename_i hauth
      split at h
      · cases h
      · rename_i hlk
        split at h
        · cases h
        · rename_i hlen
          cases h
          exact ⟨c, hc, hauth, hlk, by omega, rfl⟩
    · cases h

theorem propose_ok_intro {a : ProposeArgs} {now : Int} {w : World}
    {c : MeridianConfig} (hc : w.config = some c)
    (hauth : c.authorized_multisig = a.multisig)
    (hlk : lookupStore w.proposals (a.multisig, a.transaction_index) = none)
    (hlen : a.call_data.length ≤ MAX_CALL_DATA_SIZE) :
    propose_transaction a now w =
      .ok { w with proposals := ((a.multisig, a.transaction_index),
        { multisig := a.multisig
          transaction_index := a.transaction_index
          target_chain := a.target_chain
          target_address := a.target_address
          call_data := a.call_data
          gas_limit := a.gas_limit
          status := .Pending
          wormhole_sequence := none
          created_at := now
          executed_at := none
          bump := a.proposal_bump }) :: w.proposals } := by
  have hmax : ¬ a.call_data.length > MAX_CALL_DATA_SIZE := by omega
  simp only [propose_transaction, hc, hlk]
  rw [if_pos hauth, if_neg hmax]

theorem propose_err_cases {a : ProposeArgs} {now : Int} {w : World} {e : ProgError}
    (h : propose_transaction a now w = .error e) :
    e = .AccountNotCreated ∨ e = .UnauthorizedMultisig ∨
    e = .DuplicateIndex ∨ e = .CallDataTooLarge := by
  rw [propose_transaction] at h
  repeat' split at h
  all_goals cases h <;> simp

theorem execute_validate_err_cases {acc : ExecuteAccounts} {w : World}
    {e : ProgError} (h : execute_validate acc w = .error e) :
    e = .AccountNotCreated ∨ e = .ConstraintSeeds ∨ e = .ProposalNotPending ∨
    e = .UnauthorizedMultisig ∨ e = .ConstraintRaw ∨
    e = .InvalidWormholeProgram := by
  rw [execute_validate] at h
  repeat' split at h
  all_goals cases h <;> simp

theorem execute_err_cases {acc : ExecuteAccounts} {cpi : Except Nat Unit}
    {now : Int} {w : World} {e : ProgError}
    (h : execute_proposal acc cpi now w = .error e) :
    execute_validate acc w = .error e ∨
    (∃ c p, execute_validate acc w = .ok (c, p) ∧
      (e = .ArithmeticOverflow ∨ ∃ code, cpi = .error code ∧ e = .CpiError code)) := by
  rw [execute_proposal, execute_proposal_with_oracle] at h
  split at h
  · cases h
    left
    assumption
  · rename_i c p hcp
    right
    refine ⟨c, p, hcp, ?_⟩
    simp only [is_proposal_approved, execute_handler_core, checked_add_u64,
      post_wormhole_message] at h
    by_cases hlt : c.sequence + 1 < 2 ^ 64
    · rw [if_pos hlt] at h
      cases cpi with
      | error code =>
        cases h
        exact .inr ⟨code, rfl, rfl⟩
      | ok u =>
        cases u
        cases h
    · rw [if_neg hlt] at h
      cases h
      exact .inl rfl

theorem execute_cpi_fail {acc : ExecuteAccounts} {now : Int} {w : World}
    {c : MeridianConfig} {p : CrossChainProposal} {code : Nat}
    (hval : execute_validate acc w = .ok (c, p))
    (hlt : c.sequence + 1 < 2 ^ 64) :
    execute_proposal acc (.error code) now w = .error (.CpiError code) := by
  rw [execute_proposal, execute_proposal_with_oracle, hval]
  simp only [is_proposal_approved, execute_handler_core, checked_add_u64,
    post_wormhole_message]
  rw [if_pos hlt]

theorem execute_ok_facts {acc : ExecuteAccounts} {cpi : Except Nat Unit}
    {now : Int} {w w' : World} (h : execute_proposal acc cpi now w = .ok w') :
    ∃ c p, w.config = some c ∧
      lookupStore w.proposals acc.proposal_key = some p ∧
      p.status = .Pending ∧
      (p.multisig, p.transaction_index) = acc.proposal_key ∧
      c.authorized_multisig = acc.multisig ∧ p.multisig = acc.multisig ∧
      cpi = .ok () ∧ c.sequence + 1 < 2 ^ 64 ∧
      w'.config = some { c with sequence := c.sequence + 1 } ∧
      configSeq w = c.sequence ∧ configSeq w' = c.sequence + 1 ∧
      lookupStore w'.proposals acc.proposal_key =
        some { p with status := .Executed
                      wormhole_sequence := some (c.sequence + 1)
                      executed_at := some now } ∧
      (∀ k, k ≠ acc.proposal_key →
        lookupStore w'.proposals k = lookupStore w.proposals k) := by
  obtain ⟨c, p, hval, hcpi, hlt, hw'⟩ := execute_ok_iff.mp h
  obtain ⟨h1, h2, h3, h4, h5, h6, -⟩ := execute_validate_ok_iff.mp hval
  subst hw'
  refine ⟨c, p, h1, h2, h4, h3, h5, h6, hcpi, hlt, rfl, ?_, rfl,
    lookup_setStore_self h2, fun k hk => lookup_setStore_ne hk⟩
  rw [configSeq, h1]

/-- `Inv` is preserved by every transaction, successful or not. -/
theorem inv_runOp (op : Op) {w : World} (h : Inv w) : Inv (runOp w op) := by
  obtain ⟨hI1, hI2, hI3⟩ := h
  rw [runOp]
  cases happ : applyOp op w with
  | error e => exact ⟨hI1, hI2, hI3⟩
  | ok w' =>
    cases op with
    | opInit acc =>
      obtain ⟨hc, hp, hcfg⟩ := init_ok_elim happ
      refine ⟨?_, ?_, ?_⟩
      · intro h0
        rw [hcfg] at h0
        cases h0
      · intro kv hkv
        rw [hp, hI1 hc] at hkv
        cases hkv
      · intro kv hkv c' hc'
        rw [hp, hI1 hc] at hkv
        cases hkv
    | opPropose a now =>
      obtain ⟨c, hc, hauth, hlk, hlen, hw'⟩ := propose_ok_elim happ
      subst hw'
      refine ⟨?_, ?_, ?_⟩
      · intro h0
        have h0' : w.config = none := h0
        rw [hc] at h0'
        cases h0'
      · intro kv hkv
        rcases List.mem_cons.mp hkv with h1 | h1
        · subst h1
          rfl
        · exact hI2 kv h1
      · intro kv hkv c' hc'
        have hc'' : w.config = some c' := hc'
        rw [hc] at hc''
        cases hc''
        rcases List.mem_cons.mp hkv with h1 | h1
        · subst h1
          exact hauth.symm
        · exact hI3 kv h1 c hc
    | opExecute acc cpi now =>
      obtain ⟨c2, p2, hval, hcpi, hlt, hw'⟩ := execute_ok_iff.mp happ
      obtain ⟨h1, h2, h3, h4, h5, h6, -⟩ := execute_validate_ok_iff.mp hval
      subst hw'
      refine ⟨?_, ?_, ?_⟩
      · intro h0
        cases h0
      · intro kv hkv
        rcases mem_setStore hkv with h7 | h7
        · subst h7
          exact h3
        · exact hI2 kv h7
      · intro kv hkv c' hc'
        have hc'' : some { c2 with sequence := c2.sequence + 1 } = some c' := hc'
        cases hc''
        rcases mem_setStore hkv with h7 | h7
        · subst h7
          rw [h6, ← h5]
        · exact hI3 kv h7 c2 h1

theorem inv_run {w : World} (ops : List Op) (h : Inv w) : Inv (run w ops) := by
  induction ops generalizing w with
  | nil => exact h
  | cons op rest ih =>
    rw [run, List.foldl_cons]
    exact ih (inv_runOp op h)

/-- The empty (pre-deployment) state satisfies the invariant. -/
theorem inv_empty : Inv { config := none, proposals := [] } := by
  refine ⟨fun _ => rfl, ?_, ?_⟩
  · intro kv hkv
    cases hkv
  · intro kv hkv c hc
    cases hkv

/-- The sequence counter never decreases across a transaction. -/
theorem configSeq_runOp_le (op : Op) (w : World) :
    configSeq w ≤ configSeq (runOp w op) := by
  rw [runOp]
  cases happ : applyOp op w with
  | error e => exact Nat.le_refl _
  | ok w' =>
    cases op with
    | opInit acc =>
      obtain ⟨hc, hp, hcfg⟩ := init_ok_elim happ
      rw [configSeq, hc]
      exact Nat.zero_le _
    | opPropose a now =>
      obtain ⟨c, hc, hauth, hlk, hlen, hw'⟩ := propose_ok_elim happ
      subst hw'
      exact Nat.le_refl _
    | opExecute acc cpi now =>
      obtain ⟨c2, p2, h1, h2, h3, h4, h5, h6, hcpi, hlt, hcfg', hsw, hsw', hlook, hother⟩ :=
        execute_ok_facts happ
      rw [hsw, hsw']
      exact Nat.le_succ _

theorem configSeq_run_le (ops : List Op) (w : World) :
    configSeq w ≤ configSeq (run w ops) := by
  induction ops generalizing w with
  | nil => exact Nat.le_refl _
  | cons op rest ih =>
    rw [run, List.foldl_cons]
    exact Nat.le_trans (configSeq_runOp_le op w) (ih (runOp w op))

/-- A stored proposal's status either stays what it was or moves from
`Pending` to `Executed`. -/
theorem statusAt_runOp (op : Op) (w : World) (k : ProposalKey)
    (s : ProposalStatus) (h : statusAt w k = some s) :
    statusAt (runOp w op) k = some s ∨
      (s = .Pending ∧ statusAt (runOp w op) k = some .Executed) := by
  rw [runOp]
  cases happ : applyOp op w with
  | error e => exact .inl h
  | ok w' =>
    cases op with
    | opInit acc =>
      obtain ⟨hc, hp, hcfg⟩ := init_ok_elim happ
      left
      rw [statusAt, World.lookupProposal, hp]
      exact h
    | opPropose a now =>
      obtain ⟨c, hc, hauth, hlk, hlen, hw'⟩ := propose_ok_elim happ
      subst hw'
      left
      rw [statusAt, World.lookupProposal] at h ⊢
      by_cases hk : ((a.multisig, a.transaction_index) : ProposalKey) = k
      · rw [← hk, hlk] at h
        cases h
      · rw [lookupStore, if_neg hk]
        exact h
    | opExecute acc cpi now =>
      obtain ⟨c2, p2, h1, h2, h3, h4, h5, h6, hcpi, hlt, hcfg', hsw, hsw', hlook, hother⟩ :=
        execute_ok_facts happ
      by_cases hk : acc.proposal_key = k
      · subst hk
        right
        rw [statusAt, World.lookupProposal, h2] at h
        simp only [Option.map_some'] at h
        cases h
        refine ⟨h3.symm ▸ rfl, ?_⟩
        rw [statusAt, World.lookupProposal, hlook]
        rfl
      · left
        rw [statusAt, World.lookupProposal] at h ⊢
        rw [hother k (fun he => hk he.symm)]
        exact h

/-- Each recorded `wormhole_sequence` exceeds the entry counter, and the
records of a run are strictly increasing. -/
theorem recordedSeqs_facts (ops : List Op) : ∀ w : World,
    (∀ x ∈ recordedSeqs w ops, configSeq w < x) ∧
    List.Chain' (· < ·) (recordedSeqs w ops) := by
  induction ops with
  | nil =>
    intro w
    constructor
    · intro x hx
      cases hx
    · exact List.chain'_nil
  | cons op rest ih =>
    intro w
    cases happ : applyOp op w with
    | error e =>
      have hrec : recordedSeqs w (op :: rest) = recordedSeqs w rest := by
        rw [recordedSeqs, happ]
      rw [hrec]
      exact ih w
    | ok w' =>
      cases op with
      | opInit acc =>
        obtain ⟨hc, hp, hcfg⟩ := init_ok_elim happ
        have hrec : recordedSeqs w (.opInit acc :: rest) = recordedSeqs w' rest := by
          rw [recordedSeqs, happ]
          rfl
        rw [hrec]
        refine ⟨?_, (ih w').2⟩
        intro x hx
        have hx' := (ih w').1 x hx
        have hcw : configSeq w = 0 := by rw [configSeq, hc]
        rw [hcw]
        omega
      | opPropose a now =>
        obtain ⟨c, hc, hauth, hlk, hlen, hw'⟩ := propose_ok_elim happ
        have hrec : recordedSeqs w (.opPropose a now :: rest) = recordedSeqs w' rest := by
          rw [recordedSeqs, happ]
          rfl
        rw [hrec]
        refine ⟨?_, (ih w').2⟩
        intro x hx
        have hx' := (ih w').1 x hx
        have hcs : configSeq w = configSeq w' := by
          subst hw'
          rfl
        rw [hcs]
        exact hx'
      | opExecute acc cpi now =>
        obtain ⟨c2, p2, h1, h2, h3, h4, h5, h6, hcpi, hlt, hcfg', hsw, hsw', hlook, hother⟩ :=
          execute_ok_facts happ
        have hrec : recordedSeqs w (.opExecute acc cpi now :: rest) =
            (c2.sequence + 1) :: recordedSeqs w' rest := by
          rw [recordedSeqs, happ]
          simp only [hlook, Option.some_bind, List.singleton_append]
        rw [hrec]
        constructor
        · intro x hx
          rcases List.mem_cons.mp hx with h7 | h7
          · subst h7
            rw [hsw]
            omega
          · have hx' := (ih w').1 x h7
            rw [hsw'] at hx'
            rw [hsw]
            omega
        · rw [List.chain'_cons']
          refine ⟨?_, (ih w').2⟩
          intro y hy
          have hym := List.mem_of_mem_head? hy
          have hy' := (ih w').1 y hym
          rw [hsw'] at hy'
          omega

theorem inv_of_dec (w : World) (c : MeridianConfig) (hc : w.config = some c)
    (h2 : ∀ kv ∈ w.proposals, (kv.2.multisig, kv.2.transaction_index) = kv.1)
    (h3 : ∀ kv ∈ w.proposals, kv.2.multisig = c.authorized_multisig) : Inv w := by
  refine ⟨?_, h2, ?_⟩
  · intro h0
    rw [hc] at h0
    cases h0
  · intro kv hkv c' hc'
    rw [hc] at hc'
    cases hc'
    exact h3 kv hkv

/-- C1: for every proposal at most one successful execute can ever make it
`Executed`: execute succeeds only on a `Pending` proposal, a successful
execute sets `Executed`, any later execute on it fails with
`ProposalNotPending`, and every operation moves a stored status only along
Pending → Executed (or leaves it unchanged), so `Executed` is never left. -/
theorem C1_execute_at_most_once (w : World) (acc : ExecuteAccounts)
    (cpi : Except Nat Unit) (now : Int) :
    (∀ w', execute_proposal acc cpi now w = .ok w' →
      statusAt w acc.proposal_key = some .Pending ∧
      statusAt w' acc.proposal_key = some .Executed) ∧
    (Inv w → statusAt w acc.proposal_key = some .Executed →
      execute_proposal acc cpi now w = .error .ProposalNotPending) ∧
    (∀ op k s, statusAt w k = some s →
      statusAt (runOp w op) k = some s ∨
        (s = .Pending ∧ statusAt (runOp w op) k = some .Executed)) := by
  refine ⟨?_, ?_, fun op k s h => statusAt_runOp op w k s h⟩
  · intro w' hok
    obtain ⟨c2, p2, h1, h2, h3, h4, h5, h6, hcpi, hlt, hcfg', hsw, hsw', hlook, hother⟩ :=
      execute_ok_facts hok
    constructor
    · rw [statusAt, World.lookupProposal, h2, Option.map_some', h3]
    · rw [statusAt, World.lookupProposal, hlook]
      rfl
  · intro hInv hst
    obtain ⟨hI1, hI2, hI3⟩ := hInv
    rw [statusAt, World.lookupProposal] at hst
    cases hlk : lookupStore w.proposals acc.proposal_key with
    | none =>
      rw [hlk] at hst
      cases hst
    | some p =>
      rw [hlk, Option.map_some'] at hst
      have hstat : p.status = .Executed := by injection hst
      have hseeds := hI2 _ (lookup_mem hlk)
      cases hc : w.config with
      | none =>
        rw [hI1 hc] at hlk
        cases hlk
      | some c =>
        have hval : execute_validate acc w = .error .ProposalNotPending := by
          rw [execute_validate]
          simp only [hc, hlk]
          rw [if_pos hseeds, if_neg (by rw [hstat]; intro hcon; cases hcon)]
        exact execute_validate_err hval cpi now

/-- C1 witness: on the concrete pending state `w0`, executing succeeds and
flips the status, and re-executing the resulting `Executed` proposal fails
with `ProposalNotPending`. -/
theorem C1_witness :
    (statusAt w0 execAcc0.proposal_key = some .Pending ∧
      statusAt (runOp w0 (Op.opExecute execAcc0 (.ok ()) 2000))
        execAcc0.proposal_key = some .Executed) ∧
    execute_proposal execAcc0 (.ok ()) 3000
      (runOp w0 (Op.opExecute execAcc0 (.ok ()) 2000)) =
      .error .ProposalNotPending := by
  constructor
  · exact (C1_execute_at_most_once w0 execAcc0 (.ok ()) 2000).1
      (runOp w0 (Op.opExecute execAcc0 (.ok ()) 2000)) (by decide)
  · exact (C1_execute_at_most_once
      (runOp w0 (Op.opExecute execAcc0 (.ok ()) 2000)) execAcc0 (.ok ()) 3000).2.1
      (inv_runOp (.opExecute execAcc0 (.ok ()) 2000)
        (inv_of_dec w0 cfg0 (by decide) (by decide) (by decide)))
      (by decide)

/-- C2: the sequence counter is 0 after setup, each successful execute
increments it by exactly 1 and records the incremented value in the
proposal's `wormhole_sequence`, the counter never decreases across any run of
operations, and the recorded values of successive successful executions are
strictly increasing with no duplicates. -/
theorem C2_sequence_counter (w : World) (ops : List Op) :
    (∀ acc w', init_handler acc w = .ok w' → configSeq w' = 0) ∧
    (∀ acc cpi now w', execute_proposal acc cpi now w = .ok w' →
      configSeq w' = configSeq w + 1 ∧
      ∃ p', lookupStore w'.proposals acc.proposal_key = some p' ∧
        p'.wormhole_sequence = some (configSeq w + 1)) ∧
    configSeq w ≤ configSeq (run w ops) ∧
    List.Chain' (· < ·) (recordedSeqs w ops) := by
  refine ⟨?_, ?_, configSeq_run_le ops w, (recordedSeqs_facts ops w).2⟩
  · intro acc w' h
    obtain ⟨hc, hp, hcfg⟩ := init_ok_elim h
    rw [configSeq, hcfg]
  · intro acc cpi now w' h
    obtain ⟨c2, p2, h1, h2, h3, h4, h5, h6, hcpi, hlt, hcfg', hsw, hsw', hlook, hother⟩ :=
      execute_ok_facts h
    constructor
    · rw [hsw', hsw]
    · rw [hsw]
      exact ⟨_, hlook, rfl⟩

/-- C2 witness: on the concrete state `w0` (counter 4), a successful execute
moves the counter to 5 and records 5 in the proposal. -/
theorem C2_witness :
    configSeq (runOp w0 (Op.opExecute execAcc0 (.ok ()) 2000)) = configSeq w0 + 1 ∧
    ∃ p', lookupStore (runOp w0 (Op.opExecute execAcc0 (.ok ()) 2000)).proposals
        execAcc0.proposal_key = some p' ∧
      p'.wormhole_sequence = some (configSeq w0 + 1) :=
  (C2_sequence_counter w0 []).2.1 execAcc0 (.ok ()) 2000
    (runOp w0 (Op.opExecute execAcc0 (.ok ()) 2000)) (by decide)

/-- C3 witness: a concrete 102-byte payload round-trips through the layout
decoder. -/
theorem C3_witness :
    (create_transaction_payload (pk 12) 2 (pk 0) [170, 187] 100000 5 2000).length =
      100 + 2 ∧
    decode_transaction_payload
        (create_transaction_payload (pk 12) 2 (pk 0) [170, 187] 100000 5 2000) =
      some ⟨1, 1, 5, 2000, 0, pk 12, 2, pk 0, 100000, [170, 187]⟩ := by
  have h := C3_payload_codec_roundtrip (pk 12) (pk 0) [170, 187] 2 100000 5 2000
    (by decide) (by decide) (by decide) (by decide) (by decide) (by decide)
    (by decide) (by decide)
  exact ⟨h.2.1, h.2.2⟩

/-- C4 fails on the code: a failed Wormhole CPI surfaces as the propagated
CPI error, not `FailedToSendMessage`, and the failed transaction leaves the
whole state — including the sequence counter — unchanged, so no sequence
number is consumed. -/
theorem C4_counterexample :
    execute_proposal execAcc0 (.error 7) 2000 w0 = .error (.CpiError 7) ∧
    (ProgError.CpiError 7 ≠ .FailedToSendMessage) ∧
    runOp w0 (Op.opExecute execAcc0 (.error 7) 2000) = w0 ∧
    configSeq (runOp w0 (Op.opExecute execAcc0 (.error 7) 2000)) = configSeq w0 := by
  refine ⟨by decide, by decide, by decide, by decide⟩

/-- C4 (amended): if the emitter CPI fails during an otherwise valid
execute, the operation fails with the error propagated from the CPI
(`FailedToSendMessage` is only tied to the unreachable serialization
failure), and the failed transaction commits nothing: the proposal remains
`Pending` with `wormhole_sequence` and `executed_at` absent, and the
sequence counter is unchanged, so the consumed-number gap does not persist. -/
theorem C4_emitter_failure (w : World) (acc : ExecuteAccounts) (now : Int)
    (code : Nat) (c : MeridianConfig) (p : CrossChainProposal)
    (hval : execute_validate acc w = .ok (c, p))
    (hlt : c.sequence + 1 < 2 ^ 64) :
    execute_proposal acc (.error code) now w = .error (.CpiError code) ∧
    runOp w (.opExecute acc (.error code) now) = w := by
  have hfail := @execute_cpi_fail acc now w c p code hval hlt
  refine ⟨hfail, ?_⟩
  simp only [runOp, applyOp, hfail]

/-- C4 witness: the amended statement at the concrete pending state `w0`
with CPI failure code 7. -/
theorem C4_witness :
    execute_proposal execAcc0 (.error 7) 2000 w0 = .error (.CpiError 7) ∧
    runOp w0 (.opExecute execAcc0 (.error 7) 2000) = w0 :=
  C4_emitter_failure w0 execAcc0 2000 7 cfg0 prop0 (by decide) (by decide)

/-- C5: the approval check returns `Ok(true)` for every combination of input
accounts, and consequently no execute call ever fails with
`ProposalNotApproved`. -/
theorem C5_approval_stub :
    (∀ a b c, is_proposal_approved a b c = .ok true) ∧
    (∀ acc cpi now w, execute_proposal acc cpi now w ≠ .error .ProposalNotApproved) := by
  refine ⟨fun a b c => rfl, ?_⟩
  intro acc cpi now w h
  rcases execute_err_cases h with h1 | ⟨c, p, hval, h2⟩
  · rcases execute_validate_err_cases h1 with h3|h3|h3|h3|h3|h3 <;> cases h3
  · rcases h2 with h3 | ⟨code, hc3, h3⟩ <;> cases h3

/-- C5 witness: the stub evaluated at concrete accounts, and a concrete
execute call that does not fail with `ProposalNotApproved`. -/
theorem C5_witness :
    is_proposal_approved (pk 3) (pk 2) (pk 9) = .ok true ∧
    execute_proposal execAcc0 (.ok ()) 2000 w0 ≠ .error .ProposalNotApproved :=
  ⟨C5_approval_stub.1 (pk 3) (pk 2) (pk 9),
    C5_approval_stub.2 execAcc0 (.ok ()) 2000 w0⟩

/-- C6: were the approval oracle to answer false on a validated execute, the
call would fail with `ProposalNotApproved` and commit nothing — the proposal
stays `Pending` with its fields untouched and the counter unchanged — so the
caller can retry. -/
theorem C6_oracle_false (w : World) (acc : ExecuteAccounts)
    (cpi : Except Nat Unit) (now : Int) (c : MeridianConfig)
    (p : CrossChainProposal) (hval : execute_validate acc w = .ok (c, p)) :
    execute_proposal_with_oracle (.ok false) acc cpi now w =
      .error .ProposalNotApproved ∧
    run_with_oracle (.ok false) acc cpi now w = w := by
  have hfail : execute_proposal_with_oracle (.ok false) acc cpi now w =
      .error .ProposalNotApproved := by
    rw [execute_proposal_with_oracle, hval]
    rfl
  refine ⟨hfail, ?_⟩
  rw [run_with_oracle, hfail]

/-- C6 witness: the oracle-declined execute on the concrete state `w0`. -/
theorem C6_witness :
    execute_proposal_with_oracle (.ok false) execAcc0 (.ok ()) 2000 w0 =
      .error .ProposalNotApproved ∧
    run_with_oracle (.ok false) execAcc0 (.ok ()) 2000 w0 = w0 :=
  C6_oracle_false w0 execAcc0 (.ok ()) 2000 cfg0 prop0 (by decide)

/-- C7: submit fails with `UnauthorizedMultisig` when the supplied multisig
differs from the configured one; with `DuplicateIndex` when a record already
exists at the key, leaving the stored proposal unaffected; and with
`CallDataTooLarge` exactly when the call data exceeds 10000 bytes (10000
succeeds, 10001 fails); every failure leaves the state unmutated. -/
theorem C7_submit_failures (a : ProposeArgs) (now : Int) (w : World)
    (c : MeridianConfig) (hc : w.config = some c) :
    (c.authorized_multisig ≠ a.multisig →
      propose_transaction a now w = .error .UnauthorizedMultisig) ∧
    (∀ p, c.authorized_multisig = a.multisig →
      lookupStore w.proposals (a.multisig, a.transaction_index) = some p →
      propose_transaction a now w = .error .DuplicateIndex) ∧
    (c.authorized_multisig = a.multisig →
      lookupStore w.proposals (a.multisig, a.transaction_index) = none →
      ((propose_transaction a now w = .error .CallDataTooLarge) ↔
        a.call_data.length > 10000)) ∧
    (c.authorized_multisig = a.multisig →
      lookupStore w.proposals (a.multisig, a.transaction_index) = none →
      a.call_data.length ≤ 10000 →
      ∃ w', propose_transaction a now w = .ok w') ∧
    (∀ e, propose_transaction a now w = .error e →
      runOp w (.opPropose a now) = w ∧
      ∀ k, lookupStore (runOp w (.opPropose a now)).proposals k =
        lookupStore w.proposals k) := by
  refine ⟨?_, ?_, ?_, ?_, ?_⟩
  · intro hne
    rw [propose_transaction]
    simp only [hc]
    rw [if_neg hne]
  · intro p hauth hsome
    rw [propose_transaction]
    simp only [hc, hsome]
    rw [if_pos hauth]
  · intro hauth hnone
    constructor
    · intro herr
      by_cases hlen : a.call_data.length > 10000
      · exact hlen
      · have hlen' : a.call_data.length ≤ MAX_CALL_DATA_SIZE := Nat.not_lt.mp hlen
        rw [propose_ok_intro hc hauth hnone hlen'] at herr
        cases herr
    · intro hlen
      have hlen' : a.call_data.length > MAX_CALL_DATA_SIZE := hlen
      rw [propose_transaction]
      simp only [hc, hnone]
      rw [if_pos hauth, if_pos hlen']
  · intro hauth hnone hlen
    exact ⟨_, propose_ok_intro hc hauth hnone hlen⟩
  · intro e herr
    have hrun : runOp w (.opPropose a now) = w := by
      simp only [runOp, applyOp, herr]
    exact ⟨hrun, fun k => by rw [hrun]⟩

/-- C7 witness: the duplicate-key, boundary-success and boundary-failure
cases evaluated on the concrete state `w0`. -/
theorem C7_witness :
    propose_transaction { propArgs0 with transaction_index := 7 } 1500 w0 =
      .error .DuplicateIndex ∧
    (∃ w', propose_transaction
      { propArgs0 with call_data := List.replicate 10000 0 } 1500 w0 = .ok w') ∧
    propose_transaction
      { propArgs0 with call_data := List.replicate 10001 0 } 1500 w0 =
      .error .CallDataTooLarge := by
  refine ⟨?_, ?_, ?_⟩
  · exact (C7_submit_failures { propArgs0 with transaction_index := 7 } 1500 w0
      cfg0 (by decide)).2.1 prop0 (by decide) (by decide)
  · exact (C7_submit_failures { propArgs0 with call_data := List.replicate 10000 0 }
      1500 w0 cfg0 (by decide)).2.2.2.1 (by decide) (by decide)
      (by rw [List.length_replicate])
  · exact ((C7_submit_failures { propArgs0 with call_data := List.replicate 10001 0 }
      1500 w0 cfg0 (by decide)).2.2.1 (by decide) (by decide)).mpr
      (by rw [List.length_replicate]; omega)

/-- C8 fails on the code: with an already-`Executed` proposal, a mismatched
multisig does not produce an authorization error — the status constraint is
checked first, so the call fails with `ProposalNotPending`. -/
theorem C8_counterexample :
    execAcc1.multisig ≠ cfg0.authorized_multisig ∧
    execute_proposal execAcc1 (.ok ()) 2000 w1 = .error .ProposalNotPending ∧
    (ProgError.ProposalNotPending ≠ .UnauthorizedMultisig) := by
  refine ⟨by decide, by decide, by decide⟩

/-- C8 (amended): when the proposal at the key exists with status `Pending`,
a supplied multisig differing from the configured `authorized_multisig` or
(under the program invariant) from the proposal's stored multisig makes
execute fail with `UnauthorizedMultisig` before any state change; execute
succeeds only when the supplied multisig equals both and the proposal is
`Pending`. -/
theorem C8_authorization (w : World) (acc : ExecuteAccounts)
    (cpi : Except Nat Unit) (now : Int) :
    (Inv w → ∀ p, World.lookupProposal w acc.proposal_key = some p →
      p.status = .Pending →
      (acc.multisig ≠ p.multisig ∨
        (∀ c, w.config = some c → acc.multisig ≠ c.authorized_multisig)) →
      execute_proposal acc cpi now w = .error .UnauthorizedMultisig ∧
      runOp w (.opExecute acc cpi now) = w) ∧
    (∀ w', execute_proposal acc cpi now w = .ok w' →
      ∃ c p, w.config = some c ∧
        World.lookupProposal w acc.proposal_key = some p ∧
        p.status = .Pending ∧ acc.multisig = c.authorized_multisig ∧
        acc.multisig = p.multisig) := by
  constructor
  · intro hInv p hlk hpend hne
    obtain ⟨hI1, hI2, hI3⟩ := hInv
    rw [World.lookupProposal] at hlk
    have hseeds := hI2 _ (lookup_mem hlk)
    cases hc : w.config with
    | none =>
      rw [hI1 hc] at hlk
      cases hlk
    | some c =>
      have hown : p.multisig = c.authorized_multisig := hI3 _ (lookup_mem hlk) c hc
      have hnauth : ¬ c.authorized_multisig = acc.multisig := by
        rcases hne with hne | hne
        · rw [← hown]
          intro hcon
          exact hne hcon.symm
        · intro hcon
          exact hne c hc hcon.symm
      have hval : execute_validate acc w = .error .UnauthorizedMultisig := by
        rw [execute_validate]
        simp only [hc, hlk]
        rw [if_pos hseeds, if_pos hpend, if_neg hnauth]
      have herr := execute_validate_err hval cpi now
      refine ⟨herr, ?_⟩
      simp only [runOp, applyOp, herr]
  · intro w' hok
    obtain ⟨c2, p2, h1, h2, h3, h4, h5, h6, hcpi, hlt, hcfg', hsw, hsw', hlook, hother⟩ :=
      execute_ok_facts hok
    exact ⟨c2, p2, h1, h2, h3, h5.symm, h6.symm⟩

/-- C8 witness: on the concrete pending state `w0`, the unauthorized
multisig `pk 1` is rejected with `UnauthorizedMultisig` and nothing changes. -/
theorem C8_witness :
    execute_proposal execAcc1 (.ok ()) 2000 w0 = .error .UnauthorizedMultisig ∧
    runOp w0 (.opExecute execAcc1 (.ok ()) 2000) = w0 :=
  (C8_authorization w0 execAcc1 (.ok ()) 2000).1
    ⟨by decide, by decide, by decide⟩ prop0 (by decide) (by decide)
    (.inl (by decide))

/-- C9: an authorized submit below the size bound at a fresh key succeeds
and stores exactly the supplied fields, with status `Pending`,
`created_at = now`, and `wormhole_sequence` and `executed_at` absent. -/
theorem C9_submit_success (a : ProposeArgs) (now : Int) (w : World)
    (c : MeridianConfig) (hc : w.config = some c)
    (hauth : c.authorized_multisig = a.multisig)
    (hfresh : lookupStore w.proposals (a.multisig, a.transaction_index) = none)
    (hlen : a.call_data.length ≤ 10000) :
    ∃ w', propose_transaction a now w = .ok w' ∧ w'.config = w.config ∧
      lookupStore w'.proposals (a.multisig, a.transaction_index) = some
        { multisig := a.multisig
          transaction_index := a.transaction_index
          target_chain := a.target_chain
          target_address := a.target_address
          call_data := a.call_data
          gas_limit := a.gas_limit
          status := .Pending
          wormhole_sequence := none
          created_at := now
          executed_at := none
          bump := a.proposal_bump } := by
  refine ⟨_, propose_ok_intro hc hauth hfresh hlen, rfl, ?_⟩
  rw [lookupStore, if_pos rfl]

/-- C9 witness: the concrete authorized submit `propArgs0` on `w0` creates
exactly the expected pending record. -/
theorem C9_witness :
    ∃ w', propose_transaction propArgs0 1500 w0 = .ok w' ∧ w'.config = w0.config ∧
      lookupStore w'.proposals (propArgs0.multisig, propArgs0.transaction_index) =
        some
          { multisig := propArgs0.multisig
            transaction_index := propArgs0.transaction_index
            target_chain := propArgs0.target_chain
            target_address := propArgs0.target_address
            call_data := propArgs0.call_data
            gas_limit := propArgs0.gas_limit
            status := .Pending
            wormhole_sequence := none
            created_at := 1500
            executed_at := none
            bump := propArgs0.proposal_bump } :=
  C9_submit_success propArgs0 1500 w0 cfg0 (by decide) (by decide) (by decide)
    (by decide)

/-- C10: no input to any of the three instructions ever produces
`InvalidTargetChain`, `InvalidTargetAddress`, `GasLimitTooHigh` or
`ProposalAlreadyExecuted`: these declared error variants are unreachable. -/
theorem C10_unreachable_errors (op : Op) (w : World) (e : ProgError)
    (h : applyOp op w = .error e) :
    e ≠ .InvalidTargetChain ∧ e ≠ .InvalidTargetAddress ∧
    e ≠ .GasLimitTooHigh ∧ e ≠ .ProposalAlreadyExecuted := by
  cases op with
  | opInit acc =>
    have h1 : e = .AccountAlreadyInUse := init_err_cases h
    subst h1
    exact ⟨by decide, by decide, by decide, by decide⟩
  | opPropose a now =>
    rcases propose_err_cases h with h1|h1|h1|h1 <;> subst h1 <;>
      exact ⟨by decide, by decide, by decide, by decide⟩
  | opExecute acc cpi now =>
    rcases execute_err_cases h with h1 | ⟨c, p, hval, h2⟩
    · rcases execute_validate_err_cases h1 with h3|h3|h3|h3|h3|h3 <;> subst h3 <;>
        exact ⟨by decide, by decide, by decide, by decide⟩
    · rcases h2 with h3 | ⟨code, hc3, h3⟩ <;> subst h3 <;>
        exact ⟨(fun hcon => by cases hcon), (fun hcon => by cases hcon),
          (fun hcon => by cases hcon), (fun hcon => by cases hcon)⟩

/-- C10 witness: a concrete failing call (re-executing an `Executed`
proposal) whose error is none of the four unreachable variants. -/
theorem C10_witness :
    (ProgError.ProposalNotPending ≠ .InvalidTargetChain) ∧
    (ProgError.ProposalNotPending ≠ .InvalidTargetAddress) ∧
    (ProgError.ProposalNotPending ≠ .GasLimitTooHigh) ∧
    (ProgError.ProposalNotPending ≠ .ProposalAlreadyExecuted) :=
  C10_unreachable_errors (.opExecute execAcc0 (.ok ()) 2000) w1
    .ProposalNotPending (by decide)

end Meridian
